import Mathlib

/-!
Verification development for the duplicate-file detection engine
(`src/core/duplicate_finder.py`): `find_duplicates`, `compute_hash`,
`get_duplicate_stats`.

The filesystem is shallowly embedded: a scan root is either missing or a
directory whose entries form a tree.  Every node records the outcome of the
two filesystem operations the engine performs on it during one scan:
`getsize` (the `os.path.getsize` call; `none` models `OSError` /
`PermissionError`) and `readFile` (opening and reading the file for hashing;
`none` models any `OSError`, including the `IsADirectoryError` raised when
opening a directory, or a file deleted between the size scan and the hash
phase).  The MD5 digest itself is an opaque parameter `md5 : List Nat →
String`: `hashlib`'s only relevant contract is that `update` concatenates the
fed bytes and `hexdigest` is a function of the accumulated byte sequence,
which is embedded directly in `hashFeed`/`compute_hash`.
-/

namespace DupFinder

/-- One directory entry.  A `file` node carries the outcomes of the size
lookup and of the content read; a `dir` node carries the outcome of the size
lookup and its children (opening a directory for reading always fails with
`IsADirectoryError`, a subclass of `OSError`). -/
inductive FSTree where
  | file (fname : String) (size : Option Nat) (content : Option (List Nat))
  | dir (fname : String) (size : Option Nat) (children : List FSTree)

/-- The entry's name within its directory (what `os.listdir` / the `files`
component of `os.walk` reports). -/
def FSTree.name : FSTree → String
  | .file n _ _ => n
  | .dir n _ _ => n

/-- Outcome of `os.path.getsize` on the entry (`none` = `OSError` /
`PermissionError`). -/
def getsize : FSTree → Option Nat
  | .file _ s _ => s
  | .dir _ s _ => s

/-- Outcome of opening the entry and reading its full byte content (`none` =
`OSError` / `PermissionError`; always `none` for a directory, which raises
`IsADirectoryError ⊂ OSError`). -/
def readFile : FSTree → Option (List Nat)
  | .file _ _ c => c
  | .dir _ _ _ => none

/-- The scan root: either the path does not exist, or it is a directory with
the given entries. -/
inductive FS where
  | missing
  | rootDir (children : List FSTree)

/-- The only exception relevant to the enumeration phase:
`FileNotFoundError` raised by `os.listdir` on a missing root. -/
inductive PyError where
  | fileNotFound
deriving Repr, DecidableEq

/-- `os.path.join(root, name)` for a name containing no separator. -/
def joinPath (a b : String) : String := a ++ "/" ++ b

/-- The plain (non-directory) entries of one directory listing, paired with
their joined paths — the `files` component of one `os.walk` tuple. -/
def listFiles (path : String) (cs : List FSTree) : List (String × FSTree) :=
  cs.filterMap fun t =>
    match t with
    | FSTree.file n s c => some (joinPath path n, FSTree.file n s c)
    | FSTree.dir _ _ _ => none

/-- The files yielded by `os.walk` for all subdirectories of `path` with
entry list `cs` (top-down, in listing order), excluding `path`'s own files. -/
def walkDirs (path : String) : List FSTree → List (String × FSTree)
  | [] => []
  | FSTree.file _ _ _ :: rest => walkDirs path rest
  | FSTree.dir n _ cc :: rest =>
      (listFiles (joinPath path n) cc ++ walkDirs (joinPath path n) cc) ++ walkDirs path rest

/-- Lines 36–45 of the source: build the walker and iterate it, producing the
sequence of `(filepath, entry)` candidates in visit order.
With `recursive = true` the walker is `os.walk(folder_path)`, which yields
*nothing* when the root is missing (its internal error handler defaults to
ignoring the failure), and yields each directory's plain files top-down.
With `recursive = false` the walker is `[(folder_path, [], os.listdir(folder_path))]`:
`os.listdir` raises `FileNotFoundError` on a missing root, and its listing
contains *every* entry — subdirectories included — all of which are then
treated as candidate files. -/
def enumerate (fs : FS) (folder_path : String) (recursive : Bool) :
    Except PyError (List (String × FSTree)) :=
  if recursive then
    Except.ok (match fs with
      | FS.missing => []
      | FS.rootDir cs => listFiles folder_path cs ++ walkDirs folder_path cs)
  else
    match fs with
    | FS.missing => Except.error PyError.fileNotFound
    | FS.rootDir cs => Except.ok (cs.map fun c => (joinPath folder_path c.name, c))

/-- Index of the last `'.'` in the character list (CPython's `p.rfind(extsep)`),
with `i` the index of the list's head. -/
def lastDot : List Char → Nat → Option Nat
  | [], _ => none
  | c :: rest, i =>
    match lastDot rest (i + 1) with
    | some j => some j
    | none => if c = '.' then some i else none

/-- `os.path.splitext(filename)[1]` for a bare filename (no separators):
the extension including the leading dot, or `""` when there is none.
CPython splits at the last dot only when some character before it is not a
dot (so all-leading-dot names like `".bashrc"` have no extension). -/
def splitextExt (filename : String) : String :=
  let cs := filename.toList
  match lastDot cs 0 with
  | none => ""
  | some d =>
    if (cs.take d).any (fun ch => ch != '.') then String.mk (cs.drop d) else ""

/-- Python's `str.lower()`: lowercase every character (ASCII-faithful, like
`Char.toLower`). -/
def strLower (s : String) : String := String.mk (s.toList.map Char.toLower)

/-- Lines 47–51 of the source: `True` when the extension filter is active and
rejects `filename` (`if extensions: ... if ext not in extensions: continue`).
Python's truthiness makes both `None` and the empty list deactivate the
filter; the file's extension is lowercased, the filter entries are not. -/
def extSkip (extensions : Option (List String)) (filename : String) : Bool :=
  match extensions with
  | none => false
  | some exts =>
    if exts.isEmpty then false
    else decide (strLower (splitextExt filename) ∉ exts)

/-- Lines 43–58 of the source: the `all_files` list.  For each candidate in
walker order: skip it if the extension filter rejects its name; call
`os.path.getsize`, skipping on error; keep `(filepath, size)` when
`size >= min_size`.  (The entry node is kept alongside as the semantic
content of the path.) -/
def all_files (extensions : Option (List String)) (min_size : Nat) :
    List (String × FSTree) → List (String × Nat × FSTree)
  | [] => []
  | (filepath, t) :: rest =>
    if extSkip extensions t.name then all_files extensions min_size rest
    else
      match getsize t with
      | none => all_files extensions min_size rest
      | some size =>
        if min_size ≤ size then (filepath, size, t) :: all_files extensions min_size rest
        else all_files extensions min_size rest

/-- The distinct elements of `l` in first-occurrence order — the key sequence
of a `defaultdict` built by insertion. -/
def dedupFirst {α : Type} [DecidableEq α] : List α → List α
  | [] => []
  | a :: rest => a :: (dedupFirst rest).filter (fun b => decide (b ≠ a))

/-- Lines 60–62 of the source: `size_groups`, the insertion-ordered
`defaultdict(list)` mapping each size to the candidates of that size, as an
association list (keys in first-occurrence order, each bucket in append
order). -/
def size_groups (files : List (String × Nat × FSTree)) : List (Nat × List (String × FSTree)) :=
  (dedupFirst (files.map (fun f => f.2.1))).map fun s =>
    (s, (files.filter (fun f => decide (f.2.1 = s))).map (fun f => (f.1, f.2.2)))

/-- Lines 64–68 of the source: keep only size buckets with more than one
member. -/
def potential_duplicates (files : List (String × Nat × FSTree)) :
    List (Nat × List (String × FSTree)) :=
  (size_groups files).filter (fun g => decide (1 < g.2.length))

/-- The sequence of files the hashing loop (lines 75–76) iterates over:
every member of every surviving size bucket, in bucket order. -/
def hashTargets (files : List (String × Nat × FSTree)) : List (String × FSTree) :=
  ((potential_duplicates files).map (fun g => g.2)).flatten

/-- Line 72 of the source: `total_to_check`, fixed before the hashing loop as
the sum of the surviving buckets' sizes. -/
def total_to_check (files : List (String × Nat × FSTree)) : Nat :=
  ((potential_duplicates files).map (fun g => g.2.length)).sum

/-- Lines 109–114 of the source: the read-a-chunk / `hasher.update` loop.
`acc` is the byte sequence fed to the hasher so far, `rest` the unread suffix
of the file; `f.read(chunk_size)` returns the next `min(chunk_size, |rest|)`
bytes and the loop breaks on an empty read. -/
def hashFeed (acc rest : List Nat) (chunk_size : Nat) : List Nat :=
  if h : rest.take chunk_size = [] then acc
  else hashFeed (acc ++ rest.take chunk_size) (rest.drop chunk_size) chunk_size
termination_by rest.length
decreasing_by
  rw [List.take_eq_nil_iff] at h
  push_neg at h
  have hlen : 0 < rest.length := List.length_pos.mpr h.2
  simp only [List.length_drop]
  omega

/-- Lines 96–116 of the source: `compute_hash(filepath, chunk_size)`.
Opening the file yields its full byte content or raises (`none`); on success
the digest of the bytes fed by the chunk loop is returned. -/
def compute_hash (md5 : List Nat → String) (t : FSTree) (chunk_size : Nat) : Option String :=
  match readFile t with
  | none => none
  | some content => some (md5 (hashFeed [] content chunk_size))

/-- The per-file outcomes of the hashing loop (lines 75–81): each candidate
whose `compute_hash` call succeeds contributes `(digest, filepath, entry)`;
failures (`OSError` / `PermissionError`) are dropped by the `continue`. -/
def hashed_files (md5 : List Nat → String) (cands : List (String × FSTree)) :
    List (String × String × FSTree) :=
  cands.filterMap fun c => (compute_hash md5 c.2 65536).map fun h => (h, c.1, c.2)

/-- The insertion-ordered `defaultdict(list)` keyed by digest, as an
association list: `hash_groups` of lines 71 and 79. -/
def groupByDigest (hashed : List (String × String × FSTree)) :
    List (String × List (String × FSTree)) :=
  (dedupFirst (hashed.map (fun e => e.1))).map fun h =>
    (h, (hashed.filter (fun e => decide (e.1 = h))).map (fun e => e.2))

/-- `hash_groups` after the whole hashing loop has run on `cands`. -/
def hash_groups (md5 : List Nat → String) (cands : List (String × FSTree)) :
    List (String × List (String × FSTree)) :=
  groupByDigest (hashed_files md5 cands)

/-- Lines 87–91 of the source: keep only digest groups with more than one
member. -/
def duplicatesOf (md5 : List Nat → String) (cands : List (String × FSTree)) :
    List (String × List (String × FSTree)) :=
  (hash_groups md5 cands).filter (fun g => decide (1 < g.2.length))

/-- Lines 73–85 of the source, progress side: the sequence of
`progress_callback(checked, total_to_check, os.path.basename(filepath))`
invocations, `checked` starting at `k`.  A failed `compute_hash` hits the
`continue` *before* `checked += 1` and the callback, so failures produce no
invocation. -/
def progress_calls (md5 : List Nat → String) (total : Nat) (checked : Nat) :
    List (String × FSTree) → List (Nat × Nat × String)
  | [] => []
  | c :: rest =>
    match compute_hash md5 c.2 65536 with
    | none => progress_calls md5 total checked rest
    | some _ => (checked + 1, total, c.2.name) :: progress_calls md5 total (checked + 1) rest

/-- Lines 13–93 of the source: `find_duplicates`.  Returns the final
digest → paths mapping together with the recorded progress-callback
invocations, or the uncaught `FileNotFoundError` from the non-recursive
walker on a missing root. -/
def find_duplicates (md5 : List Nat → String) (fs : FS) (folder_path : String)
    (recursive : Bool) (min_size : Nat) (extensions : Option (List String)) :
    Except PyError (List (String × List String) × List (Nat × Nat × String)) :=
  match enumerate fs folder_path recursive with
  | Except.error e => Except.error e
  | Except.ok cands =>
    Except.ok
      (((duplicatesOf md5 (hashTargets (all_files extensions min_size cands))).map
          (fun g => (g.1, g.2.map (fun m => m.1)))),
        progress_calls md5 (total_to_check (all_files extensions min_size cands)) 0
          (hashTargets (all_files extensions min_size cands)))

/-- The statistics record of lines 142–148 (the float-formatted
`wasted_space_formatted` string is not modelled; no claim concerns it).
`duplicate_files` is a Python `int` and can be negative on degenerate input
(an empty group), hence `Int`. -/
structure Stats where
  groups : Nat
  total_files : Nat
  duplicate_files : Int
  wasted_space : Nat
deriving Repr, DecidableEq

/-- Lines 133–140 of the source: the `wasted_space` accumulation.  `sz` is
the `os.path.getsize` oracle at statistics time; a failed lookup is caught
and contributes nothing. -/
def wasted_space (sz : String → Option Nat) : List (String × List String) → Nat
  | [] => 0
  | (_, []) :: rest => wasted_space sz rest
  | (_, f0 :: fs) :: rest =>
    (match sz f0 with
     | some file_size => file_size * ((f0 :: fs).length - 1)
     | none => 0) + wasted_space sz rest

/-- Lines 119–148 of the source: `get_duplicate_stats(duplicates)`. -/
def get_duplicate_stats (sz : String → Option Nat)
    (duplicates : List (String × List String)) : Stats :=
  { groups := duplicates.length
    total_files := (duplicates.map (fun g => g.2.length)).sum
    duplicate_files :=
      ((duplicates.map (fun g => g.2.length)).sum : Int) - (duplicates.length : Int)
    wasted_space := wasted_space sz duplicates }

/-- A concrete stand-in digest function used to instantiate the opaque `md5`
parameter on concrete runs (injective on byte lists, as a collision-free
digest is on any finite population). -/
def digestFn : List Nat → String := fun bs => toString bs

/-! ### The chunked read loop feeds exactly the whole content -/

theorem hashFeed_append : ∀ (n : Nat) (acc rest : List Nat) (chunk_size : Nat),
    rest.length ≤ n → 1 ≤ chunk_size → hashFeed acc rest chunk_size = acc ++ rest := by
  intro n
  induction n with
  | zero =>
    intro acc rest cs hlen _
    have hnil : rest = [] := List.length_eq_zero.mp (Nat.le_zero.mp hlen)
    subst hnil
    unfold hashFeed
    simp
  | succ n ih =>
    intro acc rest cs hlen hcs
    unfold hashFeed
    split
    · rename_i h
      rw [List.take_eq_nil_iff] at h
      rcases h with h | h
      · omega
      · subst h; simp
    · rename_i h
      have hne : rest ≠ [] := by
        intro hnil
        subst hnil
        simp at h
      have hpos : 0 < rest.length := List.length_pos.mpr hne
      have hlen2 : (rest.drop cs).length ≤ n := by
        simp only [List.length_drop]
        omega
      rw [ih (acc ++ rest.take cs) (rest.drop cs) cs hlen2 hcs, List.append_assoc,
        List.take_append_drop]

theorem hashFeed_eq (acc rest : List Nat) (chunk_size : Nat) (h : 1 ≤ chunk_size) :
    hashFeed acc rest chunk_size = acc ++ rest :=
  hashFeed_append rest.length acc rest chunk_size le_rfl h

theorem compute_hash_some {md5 : List Nat → String} {t : FSTree} {content : List Nat}
    {k : Nat} (hread : readFile t = some content) (hk : 1 ≤ k) :
    compute_hash md5 t k = some (md5 content) := by
  unfold compute_hash
  rw [hread]
  dsimp only
  rw [hashFeed_eq [] content k hk, List.nil_append]

theorem compute_hash_dir (md5 : List Nat → String) (n : String) (sz : Option Nat)
    (cc : List FSTree) (k : Nat) :
    compute_hash md5 (FSTree.dir n sz cc) k = none := by
  unfold compute_hash readFile
  rfl

/-! ### First-occurrence deduplication -/

theorem mem_dedupFirst {α : Type} [DecidableEq α] {a : α} :
    ∀ {l : List α}, a ∈ dedupFirst l ↔ a ∈ l := by
  intro l
  induction l with
  | nil => simp [dedupFirst]
  | cons b rest ih =>
    simp only [dedupFirst, List.mem_cons, List.mem_filter]
    constructor
    · rintro (rfl | ⟨h1, _⟩)
      · exact Or.inl rfl
      · exact Or.inr (ih.mp h1)
    · rintro (rfl | h)
      · exact Or.inl rfl
      · by_cases hab : a = b
        · exact Or.inl hab
        · exact Or.inr ⟨ih.mpr h, by simp [hab]⟩

theorem nodup_dedupFirst {α : Type} [DecidableEq α] : ∀ (l : List α), (dedupFirst l).Nodup := by
  intro l
  induction l with
  | nil => simp [dedupFirst]
  | cons b rest ih =>
    simp only [dedupFirst, List.nodup_cons]
    refine ⟨?_, ih.filter _⟩
    intro hmem
    have := (List.mem_filter.mp hmem).2
    simp at this

/-! ### The candidate-collection loop as a `filterMap` -/

/-- The body of the candidate-collection loop for one entry: `none` when the
entry is skipped (extension filter, `getsize` failure, too small), otherwise
the `(filepath, size)` record (plus the entry node). -/
def afStep (extensions : Option (List String)) (min_size : Nat) (c : String × FSTree) :
    Option (String × Nat × FSTree) :=
  if extSkip extensions c.2.name then none
  else
    match getsize c.2 with
    | none => none
    | some size => if min_size ≤ size then some (c.1, size, c.2) else none

theorem all_files_eq_filterMap (e : Option (List String)) (m : Nat) :
    ∀ cands, all_files e m cands = cands.filterMap (afStep e m) := by
  intro cands
  induction cands with
  | nil => rfl
  | cons c rest ih =>
    obtain ⟨cp, ct⟩ := c
    rw [all_files, List.filterMap_cons]
    by_cases h : extSkip e ct.name = true
    · have hstep : afStep e m (cp, ct) = none := by
        unfold afStep
        simp [h]
      rw [if_pos h, hstep, ih]
    · cases hgs : getsize ct with
      | none =>
        have hstep : afStep e m (cp, ct) = none := by
          unfold afStep
          simp [h, hgs]
        rw [if_neg h, hstep, ih]
      | some size =>
        by_cases hms : m ≤ size
        · have hstep : afStep e m (cp, ct) = some (cp, size, ct) := by
            unfold afStep
            simp [h, hgs, hms]
          rw [if_neg h, hstep, ih]
          simp [hms]
        · have hstep : afStep e m (cp, ct) = none := by
            unfold afStep
            simp [h, hgs, hms]
          rw [if_neg h, hstep, ih]
          simp [hms]

theorem mem_all_files {e : Option (List String)} {m : Nat} {cands : List (String × FSTree)}
    {p : String} {s : Nat} {t : FSTree} :
    (p, s, t) ∈ all_files e m cands ↔
      (p, t) ∈ cands ∧ extSkip e t.name = false ∧ getsize t = some s ∧ m ≤ s := by
  rw [all_files_eq_filterMap, List.mem_filterMap]
  constructor
  · rintro ⟨⟨cp, ct⟩, hmem, hstep⟩
    unfold afStep at hstep
    dsimp only at hstep
    cases hsk : extSkip e ct.name with
    | true => rw [if_pos hsk] at hstep; cases hstep
    | false =>
      rw [if_neg (by simp [hsk])] at hstep
      cases hgs : getsize ct with
      | none => rw [hgs] at hstep; cases hstep
      | some size =>
        rw [hgs] at hstep
        by_cases hms : m ≤ size
        · simp only [hms, if_true] at hstep
          injection hstep with h1
          cases h1
          exact ⟨hmem, hsk, hgs, hms⟩
        · simp [hms] at hstep
  · rintro ⟨hmem, hsk, hgs, hms⟩
    refine ⟨(p, t), hmem, ?_⟩
    unfold afStep
    dsimp only
    rw [hsk, if_neg (by simp), hgs]
    simp [hms]

theorem all_files_paths_sublist (e : Option (List String)) (m : Nat)
    (cands : List (String × FSTree)) :
    ((all_files e m cands).map (fun f => f.1)).Sublist (cands.map (fun c => c.1)) := by
  rw [all_files_eq_filterMap]
  induction cands with
  | nil => simp
  | cons c rest ih =>
    rw [List.filterMap_cons]
    cases h : afStep e m c with
    | none =>
      simp only [List.map_cons]
      exact ih.cons _
    | some v =>
      simp only [List.map_cons]
      have hv : v.1 = c.1 := by
        unfold afStep at h
        split at h
        · cases h
        · split at h
          · cases h
          · split at h
            · injection h with h
              subst h
              rfl
            · cases h
      rw [hv]
      exact ih.cons₂ _

/-! ### Size buckets and the hash-phase iteration sequence -/

theorem mem_size_groups_iff {files : List (String × Nat × FSTree)}
    {g : Nat × List (String × FSTree)} :
    g ∈ size_groups files ↔
      g.1 ∈ files.map (fun f => f.2.1) ∧
        g.2 = (files.filter (fun f => decide (f.2.1 = g.1))).map (fun f => (f.1, f.2.2)) := by
  unfold size_groups
  rw [List.mem_map]
  constructor
  · rintro ⟨s, hs, rfl⟩
    exact ⟨mem_dedupFirst.mp hs, rfl⟩
  · rintro ⟨h1, h2⟩
    refine ⟨g.1, mem_dedupFirst.mpr h1, ?_⟩
    rw [← h2]

theorem mem_hashTargets_iff {files : List (String × Nat × FSTree)} {p : String} {t : FSTree} :
    (p, t) ∈ hashTargets files ↔
      ∃ s, (p, s, t) ∈ files ∧ 2 ≤ (files.filter (fun f => decide (f.2.1 = s))).length := by
  unfold hashTargets potential_duplicates
  rw [List.mem_flatten]
  constructor
  · rintro ⟨l, hl, hmem⟩
    rw [List.mem_map] at hl
    obtain ⟨gb, hgb, rfl⟩ := hl
    rw [List.mem_filter] at hgb
    obtain ⟨hgs, hlen⟩ := hgb
    rw [mem_size_groups_iff] at hgs
    obtain ⟨hkey, hval⟩ := hgs
    have hlen2 : 1 < gb.2.length := of_decide_eq_true hlen
    refine ⟨gb.1, ?_, ?_⟩
    · rw [hval, List.mem_map] at hmem
      obtain ⟨f, hf, hft⟩ := hmem
      rw [List.mem_filter] at hf
      obtain ⟨f1, f21, f22⟩ := f
      cases hft
      have hsz : f21 = gb.1 := of_decide_eq_true hf.2
      subst hsz
      exact hf.1
    · rw [hval, List.length_map] at hlen2
      omega
  · rintro ⟨s, hmem, hlen⟩
    refine ⟨(files.filter (fun f => decide (f.2.1 = s))).map (fun f => (f.1, f.2.2)), ?_, ?_⟩
    · rw [List.mem_map]
      refine ⟨(s, (files.filter (fun f => decide (f.2.1 = s))).map (fun f => (f.1, f.2.2))),
        ?_, rfl⟩
      rw [List.mem_filter]
      refine ⟨?_, ?_⟩
      · rw [mem_size_groups_iff]
        exact ⟨by rw [List.mem_map]; exact ⟨(p, s, t), hmem, rfl⟩, rfl⟩
      · rw [decide_eq_true_iff, List.length_map]
        omega
    · rw [List.mem_map]
      exact ⟨(p, s, t), List.mem_filter.mpr ⟨hmem, by simp⟩, rfl⟩

theorem hashTargets_length (files : List (String × Nat × FSTree)) :
    (hashTargets files).length = total_to_check files := by
  unfold hashTargets total_to_check
  rw [List.length_flatten, List.map_map]
  rfl

/-! ### Digest groups -/

theorem mem_hashed_files {md5 : List Nat → String} {cands : List (String × FSTree)}
    {h p : String} {t : FSTree} :
    (h, p, t) ∈ hashed_files md5 cands ↔
      (p, t) ∈ cands ∧ compute_hash md5 t 65536 = some h := by
  unfold hashed_files
  rw [List.mem_filterMap]
  constructor
  · rintro ⟨⟨cp, ct⟩, hmem, hstep⟩
    dsimp only at hstep
    cases hc : compute_hash md5 ct 65536 with
    | none => rw [hc] at hstep; cases hstep
    | some dg =>
      rw [hc] at hstep
      simp only [Option.map_some'] at hstep
      injection hstep with h1
      cases h1
      exact ⟨hmem, hc⟩
  · rintro ⟨hmem, hc⟩
    refine ⟨(p, t), hmem, ?_⟩
    dsimp only
    rw [hc]
    rfl

theorem mem_groupByDigest_iff {hashed : List (String × String × FSTree)}
    {g : String × List (String × FSTree)} :
    g ∈ groupByDigest hashed ↔
      g.1 ∈ hashed.map (fun e => e.1) ∧
        g.2 = (hashed.filter (fun e => decide (e.1 = g.1))).map (fun e => e.2) := by
  unfold groupByDigest
  rw [List.mem_map]
  constructor
  · rintro ⟨h, hs, rfl⟩
    exact ⟨mem_dedupFirst.mp hs, rfl⟩
  · rintro ⟨h1, h2⟩
    refine ⟨g.1, mem_dedupFirst.mpr h1, ?_⟩
    rw [← h2]

theorem mem_duplicatesOf_iff {md5 : List Nat → String} {cands : List (String × FSTree)}
    {g : String × List (String × FSTree)} :
    g ∈ duplicatesOf md5 cands ↔ g ∈ hash_groups md5 cands ∧ 2 ≤ g.2.length := by
  unfold duplicatesOf
  rw [List.mem_filter]
  constructor
  · rintro ⟨h1, h2⟩
    have := of_decide_eq_true h2
    exact ⟨h1, by omega⟩
  · rintro ⟨h1, h2⟩
    exact ⟨h1, decide_eq_true (by omega)⟩

/-- A member of any digest group was a hash-phase candidate, and its
`compute_hash` call succeeded with exactly the group's key. -/
theorem mem_group_elim {md5 : List Nat → String} {cands : List (String × FSTree)}
    {g : String × List (String × FSTree)} {p : String} {t : FSTree}
    (hg : g ∈ hash_groups md5 cands) (hmem : (p, t) ∈ g.2) :
    (p, t) ∈ cands ∧ compute_hash md5 t 65536 = some g.1 := by
  unfold hash_groups at hg
  rw [mem_groupByDigest_iff] at hg
  obtain ⟨hkey, hval⟩ := hg
  rw [hval, List.mem_map] at hmem
  obtain ⟨e, he, hpt⟩ := hmem
  rw [List.mem_filter] at he
  obtain ⟨e1, e2, e3⟩ := e
  cases hpt
  have h1 : e1 = g.1 := of_decide_eq_true he.2
  subst h1
  exact mem_hashed_files.mp he.1

/-- Conversely, a successfully hashed candidate is a member of the group
keyed by its digest, and that key's group is present in `hash_groups`. -/
theorem mem_group_intro {md5 : List Nat → String} {cands : List (String × FSTree)}
    {h p : String} {t : FSTree}
    (hmem : (p, t) ∈ cands) (hc : compute_hash md5 t 65536 = some h) :
    ((h, ((hashed_files md5 cands).filter (fun e => decide (e.1 = h))).map (fun e => e.2))
        ∈ hash_groups md5 cands)
      ∧ (p, t) ∈ ((hashed_files md5 cands).filter
          (fun e => decide (e.1 = h))).map (fun e => e.2) := by
  have hhf : (h, p, t) ∈ hashed_files md5 cands := mem_hashed_files.mpr ⟨hmem, hc⟩
  constructor
  · unfold hash_groups
    rw [mem_groupByDigest_iff]
    exact ⟨by rw [List.mem_map]; exact ⟨(h, p, t), hhf, rfl⟩, rfl⟩
  · rw [List.mem_map]
    exact ⟨(h, p, t), List.mem_filter.mpr ⟨hhf, by simp⟩, rfl⟩

/-! ### The progress-callback sequence -/

theorem progress_calls_spec (md5 : List Nat → String) (total : Nat) :
    ∀ (cands : List (String × FSTree)) (k : Nat),
      ((progress_calls md5 total k cands).map (fun c => c.1)
          = List.range' (k + 1)
              (cands.filter (fun c => (compute_hash md5 c.2 65536).isSome)).length)
        ∧ (∀ call ∈ progress_calls md5 total k cands, call.2.1 = total) := by
  intro cands
  induction cands with
  | nil => intro k; simp [progress_calls]
  | cons c rest ih =>
    intro k
    cases hc : compute_hash md5 c.2 65536 with
    | none =>
      have hpc : progress_calls md5 total k (c :: rest) = progress_calls md5 total k rest := by
        rw [progress_calls, hc]
      have hf : List.filter (fun c => (compute_hash md5 c.2 65536).isSome) (c :: rest)
          = List.filter (fun c => (compute_hash md5 c.2 65536).isSome) rest := by
        rw [List.filter_cons, hc]
        simp
      rw [hpc, hf]
      exact ih k
    | some dg =>
      have hpc : progress_calls md5 total k (c :: rest)
          = (k + 1, total, c.2.name) :: progress_calls md5 total (k + 1) rest := by
        rw [progress_calls, hc]
      have hf : List.filter (fun c => (compute_hash md5 c.2 65536).isSome) (c :: rest)
          = c :: List.filter (fun c => (compute_hash md5 c.2 65536).isSome) rest := by
        rw [List.filter_cons, hc]
        simp
      rw [hpc, hf]
      constructor
      · show (k + 1) :: List.map (fun c => c.1) (progress_calls md5 total (k + 1) rest) = _
        rw [List.length_cons, List.range'_succ, (ih (k + 1)).1]
      · rintro call hcall
        rcases List.mem_cons.mp hcall with rfl | hcall2
        · rfl
        · exact (ih (k + 1)).2 call hcall2

/-! ### Claim C8 -/

/-- C8: `compute_hash` computes the digest of the file's full byte content by
reading fixed-size chunks: for every file content and every `chunk_size ≥ 1`
it returns the same digest, equal to the digest of the entire content hashed
in one piece, independent of `chunk_size`. -/
theorem claimC8 (md5 : List Nat → String) (t : FSTree) (content : List Nat)
    (chunk_size : Nat) (hread : readFile t = some content) (hcs : 1 ≤ chunk_size) :
    compute_hash md5 t chunk_size = some (md5 content) :=
  compute_hash_some hread hcs

/-- Witness for C8 at a concrete file and chunk size 2. -/
theorem claimC8_witness :
    readFile (FSTree.file "a" (some 3) (some [1, 2, 3])) = some [1, 2, 3]
      ∧ 1 ≤ 2
      ∧ compute_hash digestFn (FSTree.file "a" (some 3) (some [1, 2, 3])) 2
          = some (digestFn [1, 2, 3]) :=
  ⟨rfl, by omega, claimC8 digestFn (FSTree.file "a" (some 3) (some [1, 2, 3])) [1, 2, 3] 2
    rfl (by omega)⟩

/-! ### Claim C4 -/

theorem wasted_space_sum (sz : String → Option Nat) :
    ∀ (dups : List (String × List String)),
      (∀ g ∈ dups, g.2 ≠ [] ∧ (sz g.2.headI).isSome = true) →
      wasted_space sz dups
        = (dups.map (fun g => (sz g.2.headI).getD 0 * (g.2.length - 1))).sum := by
  intro dups
  induction dups with
  | nil => intro _; rfl
  | cons g rest ih =>
    intro h
    obtain ⟨hne, hsome⟩ := h g (List.mem_cons_self _ _)
    obtain ⟨gk, gv⟩ := g
    cases gv with
    | nil => exact absurd rfl hne
    | cons f0 fs =>
      rw [wasted_space, List.map_cons, List.sum_cons,
        ih (fun g hg => h g (List.mem_cons_of_mem _ hg))]
      congr 1
      cases hsz : sz f0 with
      | none => simp [hsz]
      | some v => simp [hsz]

theorem duplicate_files_sum :
    ∀ (dups : List (String × List String)),
      ((dups.map (fun g => g.2.length)).sum : Int) - (dups.length : Int)
        = (dups.map (fun g => (g.2.length : Int) - 1)).sum := by
  intro dups
  induction dups with
  | nil => simp
  | cons g rest ih =>
    simp only [List.map_cons, List.sum_cons, List.length_cons]
    push_cast
    rw [← ih]
    ring

/-- C4: for every duplicates mapping whose groups are nonempty and whose
first member's size lookup succeeds, `get_duplicate_stats` reports
`wasted_space = Σ s × (n − 1)` (with `s` the looked-up size of the group's
first member and `n` the group's length) and
`duplicate_files = Σ (n − 1)`. -/
theorem claimC4 (sz : String → Option Nat) (dups : List (String × List String))
    (h : ∀ g ∈ dups, g.2 ≠ [] ∧ (sz g.2.headI).isSome = true) :
    (get_duplicate_stats sz dups).wasted_space
        = (dups.map (fun g => (sz g.2.headI).getD 0 * (g.2.length - 1))).sum
      ∧ (get_duplicate_stats sz dups).duplicate_files
        = (dups.map (fun g => (g.2.length : Int) - 1)).sum := by
  constructor
  · exact wasted_space_sum sz dups h
  · exact duplicate_files_sum dups

/-- Witness for C4 on two concrete groups of 3 and 2 files of size 5:
wasted space 5·2 + 5·1 = 15, duplicate files 2 + 1 = 3. -/
theorem claimC4_witness :
    (∀ g ∈ [("h1", ["a", "b", "c"]), ("h2", ["d", "e"])],
        g.2 ≠ ([] : List String) ∧ ((fun _ => some 5) g.2.headI).isSome = true)
      ∧ (get_duplicate_stats (fun _ => some 5)
          [("h1", ["a", "b", "c"]), ("h2", ["d", "e"])]).wasted_space
        = ([("h1", ["a", "b", "c"]), ("h2", ["d", "e"])].map
            (fun g => (((fun _ => some 5) g.2.headI).getD 0) * (g.2.length - 1))).sum
      ∧ (get_duplicate_stats (fun _ => some 5)
          [("h1", ["a", "b", "c"]), ("h2", ["d", "e"])]).duplicate_files
        = ([("h1", ["a", "b", "c"]), ("h2", ["d", "e"])].map
            (fun g => (g.2.length : Int) - 1)).sum := by
  refine ⟨by decide, ?_, ?_⟩
  · exact (claimC4 (fun _ => some 5) [("h1", ["a", "b", "c"]), ("h2", ["d", "e"])]
      (by decide)).1
  · exact (claimC4 (fun _ => some 5) [("h1", ["a", "b", "c"]), ("h2", ["d", "e"])]
      (by decide)).2

/-! ### Claim C7 -/

/-- C7: when an extension filter is active and its entries are well-formed
per the data model (lowercase, nonempty extension strings), a file passes the
filter exactly when its final path extension — leading dot included — matches
some entry case-insensitively; in particular an extension differing from an
entry only in letter case is accepted, and a file with no extension is always
rejected. -/
theorem claimC7 (exts : List String) (filename : String) (hne : exts ≠ [])
    (hwf : ∀ e ∈ exts, strLower e = e ∧ e ≠ "") :
    (extSkip (some exts) filename = false ↔
        ∃ e ∈ exts, strLower (splitextExt filename) = strLower e)
      ∧ (splitextExt filename = "" → extSkip (some exts) filename = true) := by
  have hnemp : exts.isEmpty = false := by
    cases exts with
    | nil => exact absurd rfl hne
    | cons a l => rfl
  constructor
  · show (if exts.isEmpty = true then false
        else decide (strLower (splitextExt filename) ∉ exts)) = false ↔ _
    rw [if_neg (by simp [hnemp])]
    rw [decide_eq_false_iff_not, not_not]
    constructor
    · intro hmem
      exact ⟨strLower (splitextExt filename), hmem, ((hwf _ hmem).1).symm⟩
    · rintro ⟨e, he, heq⟩
      rw [heq, (hwf e he).1]
      exact he
  · intro hext
    show (if exts.isEmpty = true then false
        else decide (strLower (splitextExt filename) ∉ exts)) = true
    rw [if_neg (by simp [hnemp]), hext]
    have h0 : strLower "" = "" := rfl
    rw [h0]
    refine decide_eq_true ?_
    intro hmem
    exact (hwf "" hmem).2 rfl

/-- Witness for C7: with filter `[".jpg"]`, the file `photo.JPG` (extension
differing only in case) is accepted, and an extensionless name would be
rejected. -/
theorem claimC7_witness :
    (([".jpg"] : List String) ≠ [] ∧ ∀ e ∈ [".jpg"], strLower e = e ∧ e ≠ "")
      ∧ (extSkip (some [".jpg"]) "photo.JPG" = false ↔
          ∃ e ∈ [".jpg"], strLower (splitextExt "photo.JPG") = strLower e)
      ∧ (splitextExt "photo.JPG" = "" → extSkip (some [".jpg"]) "photo.JPG" = true) := by
  refine ⟨⟨by decide, by decide⟩, ?_, ?_⟩
  · exact (claimC7 [".jpg"] "photo.JPG" (by decide) (by decide)).1
  · exact (claimC7 [".jpg"] "photo.JPG" (by decide) (by decide)).2

/-! ### Claim C1 -/

/-- C1 (amended): on a root that does not exist, `find_duplicates` fails with
`FileNotFoundError` only when `recursive = false` (the eager `os.listdir`
call); when `recursive = true`, `os.walk` swallows the error and the call
returns an empty result — indistinguishable from "nothing found". -/
theorem claimC1 (md5 : List Nat → String) (folder_path : String) (min_size : Nat)
    (extensions : Option (List String)) :
    find_duplicates md5 FS.missing folder_path false min_size extensions
        = Except.error PyError.fileNotFound
      ∧ find_duplicates md5 FS.missing folder_path true min_size extensions
        = Except.ok ([], []) :=
  ⟨rfl, rfl⟩

/-- C1 counterexample: on a missing root with `recursive = true`,
`find_duplicates` returns the empty mapping instead of failing with an
explicit error, contradicting the claim's "for both recursive = true and
recursive = false". -/
theorem claimC1_cex :
    find_duplicates digestFn FS.missing "root" true 0 none = Except.ok ([], []) := rfl

/-! ### Claim C2 -/

/-- C2 (amended): during the hashing phase the progress callback is invoked
exactly once per *successfully hashed* candidate — a hashing failure skips
the callback — with first argument counting successes `1, 2, …` in order and
second argument `total_to_check`, fixed at the start of the phase as the sum
of the sizes of all buckets with at least 2 members (equivalently, the number
of candidates); hence the last reported count equals the number of
successfully hashed candidates, which falls short of the total when any
hashing fails. -/
theorem claimC2 (md5 : List Nat → String) (files : List (String × Nat × FSTree)) :
    ((progress_calls md5 (total_to_check files) 0 (hashTargets files)).map (fun c => c.1)
        = List.range' 1
            ((hashTargets files).filter (fun c => (compute_hash md5 c.2 65536).isSome)).length)
      ∧ (∀ call ∈ progress_calls md5 (total_to_check files) 0 (hashTargets files),
          call.2.1 = total_to_check files)
      ∧ total_to_check files = (hashTargets files).length := by
  refine ⟨?_, (progress_calls_spec md5 (total_to_check files) (hashTargets files) 0).2,
    (hashTargets_length files).symm⟩
  have h := (progress_calls_spec md5 (total_to_check files) (hashTargets files) 0).1
  simpa using h

/-- Concrete scan for the C2 counterexample (and the C3/C9 witnesses): three
candidate files of size 5; `a` and `b` have identical content, reading `c`
fails (deleted between the size scan and the hash phase). -/
def fileA : FSTree := FSTree.file "a" (some 5) (some [1, 2, 3, 4, 5])

def fileB : FSTree := FSTree.file "b" (some 5) (some [1, 2, 3, 4, 5])

def fileC : FSTree := FSTree.file "c" (some 5) none

def fsC2 : FS := FS.rootDir [fileA, fileB, fileC]

theorem compute_hash_fileA : compute_hash digestFn fileA 65536 = some "[1, 2, 3, 4, 5]" := by
  rw [compute_hash_some (show readFile fileA = some [1, 2, 3, 4, 5] from rfl) (by omega)]
  rfl

theorem compute_hash_fileB : compute_hash digestFn fileB 65536 = some "[1, 2, 3, 4, 5]" := by
  rw [compute_hash_some (show readFile fileB = some [1, 2, 3, 4, 5] from rfl) (by omega)]
  rfl

theorem compute_hash_fileC : compute_hash digestFn fileC 65536 = none := rfl

theorem enum_fsC2 : enumerate fsC2 "r" false
    = Except.ok [("r/a", fileA), ("r/b", fileB), ("r/c", fileC)] := rfl

theorem all_files_fsC2 : all_files none 0 [("r/a", fileA), ("r/b", fileB), ("r/c", fileC)]
    = [("r/a", 5, fileA), ("r/b", 5, fileB), ("r/c", 5, fileC)] := rfl

theorem hashTargets_fsC2 :
    hashTargets [("r/a", 5, fileA), ("r/b", 5, fileB), ("r/c", 5, fileC)]
      = [("r/a", fileA), ("r/b", fileB), ("r/c", fileC)] := rfl

theorem total_fsC2 :
    total_to_check [("r/a", 5, fileA), ("r/b", 5, fileB), ("r/c", 5, fileC)] = 3 := rfl

theorem hashed_fsC2 : hashed_files digestFn [("r/a", fileA), ("r/b", fileB), ("r/c", fileC)]
    = [("[1, 2, 3, 4, 5]", "r/a", fileA), ("[1, 2, 3, 4, 5]", "r/b", fileB)] := by
  simp only [hashed_files, List.filterMap_cons, List.filterMap_nil, compute_hash_fileA,
    compute_hash_fileB, compute_hash_fileC, Option.map_some', Option.map_none']

theorem dups_fsC2 : duplicatesOf digestFn [("r/a", fileA), ("r/b", fileB), ("r/c", fileC)]
    = [("[1, 2, 3, 4, 5]", [("r/a", fileA), ("r/b", fileB)])] := by
  unfold duplicatesOf hash_groups
  rw [hashed_fsC2]
  rfl

theorem calls_fsC2 : progress_calls digestFn 3 0 [("r/a", fileA), ("r/b", fileB), ("r/c", fileC)]
    = [(1, 3, "a"), (2, 3, "b")] := by
  rw [progress_calls, compute_hash_fileA]
  rw [progress_calls, compute_hash_fileB]
  rw [progress_calls, compute_hash_fileC]
  rfl

/-- The full concrete run behind the C2 counterexample: one duplicate group,
and only two callback invocations for three candidates. -/
theorem run_fsC2 :
    find_duplicates digestFn fsC2 "r" false 0 none
      = Except.ok ([("[1, 2, 3, 4, 5]", ["r/a", "r/b"])], [(1, 3, "a"), (2, 3, "b")]) := by
  unfold find_duplicates
  rw [enum_fsC2]
  dsimp only
  rw [all_files_fsC2, hashTargets_fsC2, total_fsC2, dups_fsC2, calls_fsC2]
  rfl

/-- C2 counterexample: in this scan the hash phase has 3 candidates
(`total_to_check = 3`, visible as the middle component of each recorded
call), but reading `r/c` fails, so the callback fires only twice and the last
reported `processed_count` is 2 ≠ 3 — refuting "invoked exactly once for
every candidate file processed — both on hashing success and on hashing
failure" and "the last reported processed_count equals
total_candidate_count". -/
theorem claimC2_cex :
    find_duplicates digestFn fsC2 "r" false 0 none
        = Except.ok ([("[1, 2, 3, 4, 5]", ["r/a", "r/b"])], [(1, 3, "a"), (2, 3, "b")])
      ∧ total_to_check (all_files none 0 [("r/a", fileA), ("r/b", fileB), ("r/c", fileC)]) = 3
      ∧ (progress_calls digestFn 3 0
          [("r/a", fileA), ("r/b", fileB), ("r/c", fileC)]).length = 2 := by
  refine ⟨run_fsC2, rfl, ?_⟩
  rw [calls_fsC2]
  rfl

/-! ### Claim C5 -/

/-- Two distinct members force length at least 2. -/
theorem two_le_length_of_mem_ne {α : Type} {a b : α} {l : List α}
    (ha : a ∈ l) (hb : b ∈ l) (hab : a ≠ b) : 2 ≤ l.length := by
  cases l with
  | nil => cases ha
  | cons x rest =>
    cases rest with
    | nil =>
      rw [List.mem_singleton] at ha hb
      exact absurd (ha.trans hb.symm) hab
    | cons y rest2 =>
      simp only [List.length_cons]
      omega

/-- C5: the hash phase iterates exactly over the members of size buckets with
at least 2 files: a candidate is passed to `compute_hash` iff its recorded
size is shared by at least 2 candidate records, the number of `compute_hash`
invocations is exactly `total_to_check` (each surviving bucket member once),
and — paths being unique on a real filesystem — a candidate whose size no
other candidate shares is never hashed. -/
theorem claimC5 (files : List (String × Nat × FSTree)) (p : String) (t : FSTree) :
    ((p, t) ∈ hashTargets files ↔
        ∃ s, (p, s, t) ∈ files
          ∧ 2 ≤ (files.filter (fun f => decide (f.2.1 = s))).length)
      ∧ (hashTargets files).length = total_to_check files
      ∧ (∀ s, (files.map (fun f => f.1)).Nodup → (p, s, t) ∈ files →
          (files.filter (fun f => decide (f.2.1 = s))).length = 1 →
          (p, t) ∉ hashTargets files) := by
  refine ⟨mem_hashTargets_iff, hashTargets_length files, ?_⟩
  intro s hnd hmem hlen hin
  rw [mem_hashTargets_iff] at hin
  obtain ⟨s', hmem', hlen'⟩ := hin
  have heq := List.inj_on_of_nodup_map hnd hmem hmem' rfl
  injection heq with h1 h2
  injection h2 with h3 h4
  subst h3
  omega

/-- Witness for C5: a lone candidate of size 9 is never hashed. -/
theorem claimC5_witness :
    (([("r/w", 9, FSTree.file "w" (some 9) (some [7]))].map (fun f => f.1)).Nodup
      ∧ ("r/w", 9, FSTree.file "w" (some 9) (some [7]))
          ∈ [("r/w", 9, FSTree.file "w" (some 9) (some [7]))]
      ∧ ([("r/w", 9, FSTree.file "w" (some 9) (some [7]))].filter
          (fun f => decide (f.2.1 = 9))).length = 1)
    ∧ ("r/w", FSTree.file "w" (some 9) (some [7]))
        ∉ hashTargets [("r/w", 9, FSTree.file "w" (some 9) (some [7]))] :=
  ⟨⟨by simp, List.mem_cons_self _ _, rfl⟩,
    (claimC5 [("r/w", 9, FSTree.file "w" (some 9) (some [7]))] "r/w"
        (FSTree.file "w" (some 9) (some [7]))).2.2 9 (by simp)
      (List.mem_cons_self _ _) rfl⟩

/-! ### Claim C6 -/

/-- C6: if hashing one candidate fails, the scan still completes normally,
the final grouping is exactly what it would have been had that file never
reached the hash phase, and — provided no other candidate shares its path —
the failed file's path is absent from every group of the result. -/
theorem claimC6 (md5 : List Nat → String) (l1 l2 : List (String × FSTree)) (p : String)
    (t : FSTree) (hfail : compute_hash md5 t 65536 = none) :
    duplicatesOf md5 (l1 ++ (p, t) :: l2) = duplicatesOf md5 (l1 ++ l2)
      ∧ (p ∉ (l1 ++ l2).map (fun c => c.1) →
          ∀ g ∈ duplicatesOf md5 (l1 ++ (p, t) :: l2), p ∉ g.2.map (fun m => m.1))
      ∧ ∀ (fs : FS) (fp : String) (rec : Bool) (ms : Nat) (exts : Option (List String))
          (cands : List (String × FSTree)), enumerate fs fp rec = Except.ok cands →
          ∃ r, find_duplicates md5 fs fp rec ms exts = Except.ok r := by
  have hhf : hashed_files md5 (l1 ++ (p, t) :: l2) = hashed_files md5 (l1 ++ l2) := by
    unfold hashed_files
    rw [List.filterMap_append, List.filterMap_append, List.filterMap_cons]
    dsimp only
    rw [hfail]
    rfl
  refine ⟨?_, ?_, ?_⟩
  · unfold duplicatesOf hash_groups
    rw [hhf]
  · intro hnot g hgdup hpg
    rw [mem_duplicatesOf_iff] at hgdup
    rw [List.mem_map] at hpg
    obtain ⟨⟨mp, mt⟩, hmemg, hmp⟩ := hpg
    dsimp only at hmp
    subst hmp
    obtain ⟨hcand, hhash⟩ := mem_group_elim hgdup.1 hmemg
    rcases List.mem_append.mp hcand with h1 | h1
    · refine hnot ?_
      rw [List.mem_map]
      exact ⟨(mp, mt), List.mem_append_left _ h1, rfl⟩
    · rcases List.mem_cons.mp h1 with heq | h2
      · injection heq with h3 h4
        subst h4
        rw [hfail] at hhash
        cases hhash
      · refine hnot ?_
        rw [List.mem_map]
        exact ⟨(mp, mt), List.mem_append_right _ h2, rfl⟩
  · intro fs fp rec ms exts cands henum
    unfold find_duplicates
    rw [henum]
    exact ⟨_, rfl⟩

/-- Witness for C6: a concrete failing file (`r/c`) leaves the surviving
group of `r/a`, `r/b` untouched and appears in no group. -/
theorem claimC6_witness :
    compute_hash digestFn fileC 65536 = none
      ∧ duplicatesOf digestFn ([("r/a", fileA), ("r/b", fileB)] ++ ("r/c", fileC) :: [])
          = duplicatesOf digestFn ([("r/a", fileA), ("r/b", fileB)] ++ []) :=
  ⟨rfl, (claimC6 digestFn [("r/a", fileA), ("r/b", fileB)] [] "r/c" fileC rfl).1⟩

/-! ### Claim C3 -/

/-- C3: two byte-identical candidates that both pass every filter (visited
under the recursion setting, accepted by the extension filter, size lookup
succeeding with a size at least `min_size`, readable throughout the scan) end
up together in one duplicate group of the result. -/
theorem claimC3 (md5 : List Nat → String) (fs : FS) (fp : String) (rec : Bool)
    (ms : Nat) (exts : Option (List String)) (cands : List (String × FSTree))
    (pA pB : String) (tA tB : FSTree) (c : List Nat) (s : Nat)
    (henum : enumerate fs fp rec = Except.ok cands)
    (hA : (pA, tA) ∈ cands) (hB : (pB, tB) ∈ cands) (hne : pA ≠ pB)
    (hskA : extSkip exts tA.name = false) (hskB : extSkip exts tB.name = false)
    (hszA : getsize tA = some s) (hszB : getsize tB = some s) (hms : ms ≤ s)
    (hrdA : readFile tA = some c) (hrdB : readFile tB = some c) :
    ∃ res, find_duplicates md5 fs fp rec ms exts = Except.ok res
      ∧ ∃ g ∈ res.1, pA ∈ g.2 ∧ pB ∈ g.2 := by
  have hfA : (pA, s, tA) ∈ all_files exts ms cands := mem_all_files.mpr ⟨hA, hskA, hszA, hms⟩
  have hfB : (pB, s, tB) ∈ all_files exts ms cands := mem_all_files.mpr ⟨hB, hskB, hszB, hms⟩
  have hfilA : (pA, s, tA) ∈ (all_files exts ms cands).filter (fun f => decide (f.2.1 = s)) :=
    List.mem_filter.mpr ⟨hfA, by simp⟩
  have hfilB : (pB, s, tB) ∈ (all_files exts ms cands).filter (fun f => decide (f.2.1 = s)) :=
    List.mem_filter.mpr ⟨hfB, by simp⟩
  have hlen : 2 ≤ ((all_files exts ms cands).filter (fun f => decide (f.2.1 = s))).length := by
    refine two_le_length_of_mem_ne hfilA hfilB ?_
    intro h
    injection h with h1 _
    exact hne h1
  have htgA : (pA, tA) ∈ hashTargets (all_files exts ms cands) :=
    mem_hashTargets_iff.mpr ⟨s, hfA, hlen⟩
  have htgB : (pB, tB) ∈ hashTargets (all_files exts ms cands) :=
    mem_hashTargets_iff.mpr ⟨s, hfB, hlen⟩
  have hcA : compute_hash md5 tA 65536 = some (md5 c) := compute_hash_some hrdA (by omega)
  have hcB : compute_hash md5 tB 65536 = some (md5 c) := compute_hash_some hrdB (by omega)
  obtain ⟨hgrp, hmA⟩ := mem_group_intro htgA hcA
  obtain ⟨_, hmB⟩ := mem_group_intro htgB hcB
  have hGlen : 2 ≤ (((hashed_files md5 (hashTargets (all_files exts ms cands))).filter
      (fun e => decide (e.1 = md5 c))).map (fun e => e.2)).length := by
    refine two_le_length_of_mem_ne hmA hmB ?_
    intro h
    injection h with h1 _
    exact hne h1
  have hGdup : (md5 c, ((hashed_files md5 (hashTargets (all_files exts ms cands))).filter
      (fun e => decide (e.1 = md5 c))).map (fun e => e.2))
        ∈ duplicatesOf md5 (hashTargets (all_files exts ms cands)) :=
    mem_duplicatesOf_iff.mpr ⟨hgrp, hGlen⟩
  refine ⟨((duplicatesOf md5 (hashTargets (all_files exts ms cands))).map
      (fun g => (g.1, g.2.map (fun m => m.1))),
    progress_calls md5 (total_to_check (all_files exts ms cands)) 0
      (hashTargets (all_files exts ms cands))), ?_, ?_⟩
  · unfold find_duplicates
    rw [henum]
  · refine ⟨(md5 c, (((hashed_files md5 (hashTargets (all_files exts ms cands))).filter
        (fun e => decide (e.1 = md5 c))).map (fun e => e.2)).map (fun m => m.1)), ?_, ?_, ?_⟩
    · exact List.mem_map.mpr ⟨_, hGdup, rfl⟩
    · exact List.mem_map.mpr ⟨(pA, tA), hmA, rfl⟩
    · exact List.mem_map.mpr ⟨(pB, tB), hmB, rfl⟩

/-- Witness for C3 on the concrete scan `fsC2`: `r/a` and `r/b` share one
group. -/
theorem claimC3_witness :
    (enumerate fsC2 "r" false = Except.ok [("r/a", fileA), ("r/b", fileB), ("r/c", fileC)]
      ∧ ("r/a" : String) ≠ "r/b"
      ∧ readFile fileA = some [1, 2, 3, 4, 5] ∧ readFile fileB = some [1, 2, 3, 4, 5])
    ∧ ∃ res, find_duplicates digestFn fsC2 "r" false 0 none = Except.ok res
        ∧ ∃ g ∈ res.1, "r/a" ∈ g.2 ∧ "r/b" ∈ g.2 :=
  ⟨⟨rfl, by decide, rfl, rfl⟩,
    claimC3 digestFn fsC2 "r" false 0 none [("r/a", fileA), ("r/b", fileB), ("r/c", fileC)]
      "r/a" "r/b" fileA fileB [1, 2, 3, 4, 5] 5 rfl (List.mem_cons_self _ _)
      (List.mem_cons_of_mem _ (List.mem_cons_self _ _)) (by decide) rfl rfl rfl rfl
      (by omega) rfl rfl⟩

/-! ### Claim C9 -/

theorem compute_hash_elim {md5 : List Nat → String} {t : FSTree} {h : String} {k : Nat}
    (hk : 1 ≤ k) (hc : compute_hash md5 t k = some h) :
    ∃ content, readFile t = some content ∧ md5 content = h := by
  unfold compute_hash at hc
  cases hrd : readFile t with
  | none =>
    rw [hrd] at hc
    cases hc
  | some content =>
    rw [hrd] at hc
    dsimp only at hc
    injection hc with hc
    rw [hashFeed_eq [] content k hk, List.nil_append] at hc
    exact ⟨content, rfl, hc⟩

/-- C9: on a scan whose enumerated paths are distinct (as on any real
filesystem), every returned mapping is well-formed: each group holds at least
2 paths, each path in a group was a hash-phase candidate whose content's
digest equals the group's key, and no path occurs in two different groups. -/
theorem claimC9 (md5 : List Nat → String) (fs : FS) (fp : String) (rec : Bool)
    (ms : Nat) (exts : Option (List String)) (cands : List (String × FSTree))
    (res : List (String × List String) × List (Nat × Nat × String))
    (henum : enumerate fs fp rec = Except.ok cands)
    (hnd : (cands.map (fun c => c.1)).Nodup)
    (hres : find_duplicates md5 fs fp rec ms exts = Except.ok res) :
    ∀ g ∈ res.1,
      2 ≤ g.2.length
        ∧ (∀ p ∈ g.2, ∃ t content,
            (p, t) ∈ hashTargets (all_files exts ms cands)
              ∧ readFile t = some content ∧ md5 content = g.1)
        ∧ ∀ g' ∈ res.1, ∀ p, p ∈ g.2 → p ∈ g'.2 → g = g' := by
  unfold find_duplicates at hres
  rw [henum] at hres
  dsimp only at hres
  injection hres with hres
  subst hres
  have hndf : ((all_files exts ms cands).map (fun f => f.1)).Nodup :=
    (all_files_paths_sublist exts ms cands).nodup hnd
  intro g hg
  dsimp only at hg
  rw [List.mem_map] at hg
  obtain ⟨G, hGdup, rfl⟩ := hg
  obtain ⟨hGgrp, hGlen⟩ := mem_duplicatesOf_iff.mp hGdup
  refine ⟨?_, ?_, ?_⟩
  · dsimp only
    rw [List.length_map]
    exact hGlen
  · intro p hp
    dsimp only at hp
    rw [List.mem_map] at hp
    obtain ⟨⟨mp, mt⟩, hmemG, hmp⟩ := hp
    dsimp only at hmp
    subst hmp
    obtain ⟨htg, hch⟩ := mem_group_elim hGgrp hmemG
    obtain ⟨content, hrd, hdg⟩ := compute_hash_elim (by omega) hch
    exact ⟨mt, content, htg, hrd, hdg⟩
  · intro g' hg' p hp hp'
    dsimp only at hg'
    rw [List.mem_map] at hg'
    obtain ⟨G', hGdup', rfl⟩ := hg'
    obtain ⟨hGgrp', hGlen'⟩ := mem_duplicatesOf_iff.mp hGdup'
    dsimp only at hp hp'
    rw [List.mem_map] at hp hp'
    obtain ⟨⟨p1, t1⟩, hm1, he1⟩ := hp
    obtain ⟨⟨p2, t2⟩, hm2, he2⟩ := hp'
    dsimp only at he1 he2
    subst he1
    subst he2
    obtain ⟨htg1, hch1⟩ := mem_group_elim hGgrp hm1
    obtain ⟨htg2, hch2⟩ := mem_group_elim hGgrp' hm2
    obtain ⟨s1, hf1, _⟩ := mem_hashTargets_iff.mp htg1
    obtain ⟨s2, hf2, _⟩ := mem_hashTargets_iff.mp htg2
    have hEq := List.inj_on_of_nodup_map hndf hf1 hf2 rfl
    injection hEq with _ hEq2
    injection hEq2 with _ hEq3
    subst hEq3
    have hkey : G.1 = G'.1 := by
      rw [hch1] at hch2
      injection hch2
    have hv : G.2 = G'.2 := by
      unfold hash_groups at hGgrp hGgrp'
      have h1 := (mem_groupByDigest_iff.mp hGgrp).2
      have h2 := (mem_groupByDigest_iff.mp hGgrp').2
      rw [h1, h2, hkey]
    have hGG : G = G' := Prod.ext hkey hv
    rw [hGG]

/-- Witness for C9 on the concrete scan `fsC2`: its single returned group is
well-formed. -/
theorem claimC9_witness :
    ((([("r/a", fileA), ("r/b", fileB), ("r/c", fileC)].map
        (fun c => c.1)) : List String).Nodup)
    ∧ ∀ g ∈ (([("[1, 2, 3, 4, 5]", ["r/a", "r/b"])],
          [(1, 3, "a"), (2, 3, "b")]) : List (String × List String)
            × List (Nat × Nat × String)).1,
        2 ≤ g.2.length
          ∧ (∀ p ∈ g.2, ∃ t content,
              (p, t) ∈ hashTargets (all_files none 0
                  [("r/a", fileA), ("r/b", fileB), ("r/c", fileC)])
                ∧ readFile t = some content ∧ digestFn content = g.1)
          ∧ ∀ g' ∈ (([("[1, 2, 3, 4, 5]", ["r/a", "r/b"])],
              [(1, 3, "a"), (2, 3, "b")]) : List (String × List String)
                × List (Nat × Nat × String)).1,
              ∀ p, p ∈ g.2 → p ∈ g'.2 → g = g' :=
  ⟨by decide,
    claimC9 digestFn fsC2 "r" false 0 none
      [("r/a", fileA), ("r/b", fileB), ("r/c", fileC)]
      ([("[1, 2, 3, 4, 5]", ["r/a", "r/b"])], [(1, 3, "a"), (2, 3, "b")])
      rfl (by decide) run_fsC2⟩

/-! ### Claim C10 -/

/-- C10 (amended): with `recursive = false`, every directory entry of the
root — subdirectories included — is enumerated as a candidate record; a
subdirectory whose reported size passes `min_size` (and the extension filter,
if any) is recorded in `all_files` and placed in its size bucket; hashing a
directory always fails (`IsADirectoryError` is silently caught), so whenever
its bucket keeps at least 2 members the directory is iterated by the hash
phase — counted in `total_to_check` — yet it never contributes to any group
of the result. -/
theorem claimC10 (md5 : List Nat → String) (fp : String) (cs : List FSTree)
    (n : String) (sz : Option Nat) (cc : List FSTree) (s ms : Nat)
    (exts : Option (List String))
    (hmem : FSTree.dir n sz cc ∈ cs)
    (hsk : extSkip exts n = false) (hsz : sz = some s) (hms : ms ≤ s) :
    enumerate (FS.rootDir cs) fp false
        = Except.ok (cs.map (fun c => (joinPath fp c.name, c)))
      ∧ (joinPath fp n, s, FSTree.dir n sz cc)
          ∈ all_files exts ms (cs.map (fun c => (joinPath fp c.name, c)))
      ∧ (∀ k, compute_hash md5 (FSTree.dir n sz cc) k = none)
      ∧ (2 ≤ ((all_files exts ms (cs.map (fun c => (joinPath fp c.name, c)))).filter
            (fun f => decide (f.2.1 = s))).length →
          (joinPath fp n, FSTree.dir n sz cc)
            ∈ hashTargets (all_files exts ms (cs.map (fun c => (joinPath fp c.name, c)))))
      ∧ ∀ (cands : List (String × FSTree)) (g : String × List (String × FSTree)),
          g ∈ duplicatesOf md5 cands → (joinPath fp n, FSTree.dir n sz cc) ∉ g.2 := by
  have hall : (joinPath fp n, s, FSTree.dir n sz cc)
      ∈ all_files exts ms (cs.map (fun c => (joinPath fp c.name, c))) := by
    refine mem_all_files.mpr ⟨?_, hsk, hsz, hms⟩
    exact List.mem_map.mpr ⟨FSTree.dir n sz cc, hmem, rfl⟩
  refine ⟨rfl, hall, compute_hash_dir md5 n sz cc, ?_, ?_⟩
  · intro hlen
    exact mem_hashTargets_iff.mpr ⟨s, hall, hlen⟩
  · intro cands g hgdup hmemg
    obtain ⟨hggrp, _⟩ := mem_duplicatesOf_iff.mp hgdup
    obtain ⟨_, hch⟩ := mem_group_elim hggrp hmemg
    rw [compute_hash_dir] at hch
    cases hch

/-- Concrete entries for the C10 witness and counterexample. -/
def fileX : FSTree := FSTree.file "x" (some 5) (some [9, 9, 9, 9, 9])

def fileX7 : FSTree := FSTree.file "x" (some 7) (some [1, 2, 3, 4, 5, 6, 7])

/-- Witness for C10: a subdirectory of reported size 5 is recorded in
`all_files` next to a 5-byte file. -/
theorem claimC10_witness :
    (FSTree.dir "d" (some 5) [] ∈ [FSTree.dir "d" (some 5) [], fileX]
      ∧ extSkip none "d" = false ∧ (some 5 : Option Nat) = some 5 ∧ 0 ≤ 5)
    ∧ ("r/d", 5, FSTree.dir "d" (some 5) [])
        ∈ all_files none 0 ([FSTree.dir "d" (some 5) [], fileX].map
            (fun c => (joinPath "r" c.name, c))) :=
  ⟨⟨List.mem_cons_self _ _, rfl, rfl, by omega⟩,
    (claimC10 digestFn "r" [FSTree.dir "d" (some 5) [], fileX] "d" (some 5) [] 5 0 none
      (List.mem_cons_self _ _) rfl rfl (by omega)).2.1⟩

/-- C10 counterexample: a subdirectory passing the filters whose size (4096)
no other candidate shares is placed in a singleton size bucket and therefore
*not* counted in `total_to_check` (which is 0 here), contradicting the
claim's unconditional "placed in a size bucket and counted in the hash
phase's total_candidate_count". -/
theorem claimC10_cex :
    ("r/d", 4096, FSTree.dir "d" (some 4096) [])
        ∈ all_files none 0 [("r/d", FSTree.dir "d" (some 4096) []), ("r/x", fileX7)]
      ∧ total_to_check (all_files none 0
          [("r/d", FSTree.dir "d" (some 4096) []), ("r/x", fileX7)]) = 0 := by
  constructor
  · rw [show all_files none 0 [("r/d", FSTree.dir "d" (some 4096) []), ("r/x", fileX7)]
        = [("r/d", 4096, FSTree.dir "d" (some 4096) []), ("r/x", 7, fileX7)] from rfl]
    exact List.mem_cons_self _ _
  · rfl

end DupFinder
